import Mathlib

/-!
Shallow embedding of the TRISH repository (src/anki-trish.py and
src/tsv-trish.py) and verification of its specification claims.

All string-processing functions are modelled on explicit character lists
(only ASCII behaviour is exercised by the program), and stateful Python
code is modelled by explicit folds over input lists.
-/

namespace Trish

/-! ## Basic string helpers (Python string methods used by the program) -/

/-- Whitespace characters stripped by the Python method strip (ASCII range). -/
def isPySpace (c : Char) : Bool :=
  c = ' ' || c = '\t' || c = '\n' || c = '\r' || c = '\x0b' || c = '\x0c'

/-- Drop leading Python whitespace from a character list. -/
def dropSpace (cs : List Char) : List Char := cs.dropWhile isPySpace

/-- Python str.strip: remove leading and trailing whitespace. -/
def stripChars (cs : List Char) : List Char :=
  ((dropSpace cs.reverse).reverse |> dropSpace)

/-- Python str.strip lifted to strings. -/
def pyStrip (s : String) : String := ⟨stripChars s.data⟩

/-- Python str.lower (ASCII case folding, which covers the program input). -/
def pyLower (s : String) : String := ⟨s.data.map Char.toLower⟩

/-- Python s.startswith(c) for a single-character pattern c. -/
def headIs (c : Char) (s : String) : Bool :=
  match s.data with
  | [] => false
  | d :: _ => d = c

/-! ## clean_for_tts (src/anki-trish.py lines 20-28) -/

/-- The replacement of each newline by a period and a space,
from the line text.replace of clean_for_tts. -/
def replNl : List Char → List Char
  | [] => []
  | c :: cs => if c = '\n' then '.' :: ' ' :: replNl cs else c :: replNl cs

/-- Scan for the closing bracket of a markup tag, among the characters that
follow the opening bracket and one first body character: the Python pattern
in re.sub is non-greedy, so the first closing bracket ends the tag, and a
new opening bracket aborts the match. Returns the index of the closer. -/
def tagEndAux : List Char → Nat → Option Nat
  | [], _ => none
  | c :: cs, j =>
    if c = '>' then some j
    else if c = '<' then none
    else tagEndAux cs (j + 1)

/-- Given the characters after an opening bracket, find the index of the
closing bracket of the shortest match of the tag pattern of clean_for_tts
(one or more characters other than an opening bracket, then a closer). -/
def tagEnd : List Char → Option Nat
  | [] => none
  | c :: cs => if c = '<' then none else tagEndAux cs 1

/-- One left-to-right pass removing every match of the tag pattern, as
re.sub does; fuelled so that the recursion is structural (the fuel is
always at least the length of the list, so it is never exhausted). -/
def removeTagsGo : Nat → List Char → List Char
  | 0, cs => cs
  | fuel + 1, cs =>
    match cs with
    | [] => []
    | c :: rest =>
      if c = '<' then
        match tagEnd rest with
        | some j => removeTagsGo fuel (rest.drop (j + 1))
        | none => c :: removeTagsGo fuel rest
      else c :: removeTagsGo fuel rest

/-- Removal of markup tags, modelling re.sub of the pattern used in
clean_for_tts over the whole text. -/
def removeTags (cs : List Char) : List Char := removeTagsGo cs.length cs

/-- clean_for_tts from src/anki-trish.py: replace newlines by a period and
space, remove markup tags, strip surrounding whitespace. -/
def clean_for_tts (s : String) : String :=
  ⟨stripChars (removeTags (replNl s.data))⟩

/-- Checks that a character list consists of plain text and well-formed
markup tags only: every opening bracket starts a tag the pattern of
clean_for_tts matches, and no stray closing bracket occurs. Fuelled like
the tag remover so both functions recurse in step. -/
def wellTaggedGo : Nat → List Char → Bool
  | 0, cs => cs.isEmpty
  | fuel + 1, cs =>
    match cs with
    | [] => true
    | c :: rest =>
      if c = '<' then
        match tagEnd rest with
        | some j => wellTaggedGo fuel (rest.drop (j + 1))
        | none => false
      else if c = '>' then false
      else wellTaggedGo fuel rest

/-- Well-formedness of the markup in a character list. -/
def wellTagged (cs : List Char) : Bool := wellTaggedGo cs.length cs

/-! ## clean_tag and html escaping (src/anki-trish.py lines 30-31, 239) -/

/-- clean_tag from src/anki-trish.py: strip, then replace spaces by
underscores and ampersands by the word and. -/
def clean_tag (s : String) : String :=
  ⟨(stripChars s.data).flatMap fun c =>
    if c = ' ' then ['_']
    else if c = '&' then ['a', 'n', 'd']
    else [c]⟩

/-- html.escape as applied to the condition (quote=True default):
ampersand, angle brackets and both quote characters are replaced by
entities. -/
def escapeHtml (s : String) : String :=
  ⟨s.data.flatMap fun c =>
    if c = '&' then "&amp;".data
    else if c = '<' then "&lt;".data
    else if c = '>' then "&gt;".data
    else if c = '"' then "&quot;".data
    else if c = '\x27' then "&#x27;".data
    else [c]⟩

/-- The display form of a value: newlines become break tags
(val.replace of line 236). -/
def replNlBr (s : String) : String :=
  ⟨s.data.flatMap fun c => if c = '\n' then "<br>".data else [c]⟩

/-! ## get_stable_id (src/anki-trish.py lines 12-18): SHA-256 -/

/-- Truncation to a 32-bit word. -/
def w32 (n : Nat) : Nat := n % 4294967296

/-- Right rotation of a 32-bit word. -/
def rotr (n x : Nat) : Nat := w32 ((x >>> n) ||| (x <<< (32 - n)))

/-- Bitwise complement within 32 bits. -/
def compl32 (x : Nat) : Nat := x ^^^ 4294967295

def bsig0 (x : Nat) : Nat := (rotr 2 x) ^^^ (rotr 13 x) ^^^ (rotr 22 x)
def bsig1 (x : Nat) : Nat := (rotr 6 x) ^^^ (rotr 11 x) ^^^ (rotr 25 x)
def ssig0 (x : Nat) : Nat := (rotr 7 x) ^^^ (rotr 18 x) ^^^ (x >>> 3)
def ssig1 (x : Nat) : Nat := (rotr 17 x) ^^^ (rotr 19 x) ^^^ (x >>> 10)
def chf (x y z : Nat) : Nat := (x &&& y) ^^^ (compl32 x &&& z)
def majf (x y z : Nat) : Nat := (x &&& y) ^^^ (x &&& z) ^^^ (y &&& z)

/-- The 64 SHA-256 round constants of FIPS 180-4, written in decimal, and
validated below against the official test vectors. -/
def shaK : List Nat :=
  [1116352408, 1899447441, 3049323471, 3921009573, 961987163, 1508970993,
   2453635748, 2870763221, 3624381080, 310598401, 607225278, 1426881987,
   1925078388, 2162078206, 2614888103, 3248222580, 3835390401, 4022224774,
   264347078, 604807628, 770255983, 1249150122, 1555081692, 1996064986,
   2554220882, 2821834349, 2952996808, 3210313671, 3336571891, 3584528711,
   113926993, 338241895, 666307205, 773529912, 1294757372, 1396182291,
   1695183700, 1986661051, 2177026350, 2456956037, 2730485921, 2820302411,
   3259730800, 3345764771, 3516065817, 3600352804, 4094571909, 275423344,
   430227734, 506948616, 659060556, 883997877, 958139571, 1322822218,
   1537002063, 1747873779, 1955562222, 2024104815, 2227730452, 2361852424,
   2428436474, 2756734187, 3204031479, 3329325298]

/-- Hash state of eight 32-bit words. -/
structure H8 where
  a : Nat
  b : Nat
  c : Nat
  d : Nat
  e : Nat
  f : Nat
  g : Nat
  h : Nat
deriving Repr, DecidableEq

/-- The SHA-256 initial hash value of FIPS 180-4, in decimal. -/
def sha256Init : H8 :=
  ⟨1779033703, 3144134277, 1013904242, 2773480762,
   1359893119, 2600822924, 528734635, 1541459225⟩

/-- The k most significant bytes of a number, big-endian. -/
def toBytesBE : Nat → Nat → List Nat
  | 0, _ => []
  | k + 1, n => toBytesBE k (n / 256) ++ [n % 256]

/-- Big-endian interpretation of a byte list, as the Python method
int.from_bytes with byteorder big. -/
def fromBytesBE (bs : List Nat) : Nat := bs.foldl (fun acc b => acc * 256 + b) 0

/-- SHA-256 message padding: a 0x80 byte, zeros to 56 modulo 64, and the
bit length over eight big-endian bytes. -/
def shaPad (msg : List Nat) : List Nat :=
  let z := (64 + 56 - (msg.length + 1) % 64) % 64
  msg ++ [0x80] ++ List.replicate z 0 ++ toBytesBE 8 (msg.length * 8)

/-- Cut a byte list into blocks of 64 (fuelled; fuel at least the length). -/
def chunksGo : Nat → List Nat → List (List Nat)
  | 0, _ => []
  | fuel + 1, l =>
    match l with
    | [] => []
    | l => l.take 64 :: chunksGo fuel (l.drop 64)

/-- Parse a block into 32-bit words, four bytes each, big-endian. -/
def bytesToWords : List Nat → List Nat
  | b0 :: b1 :: b2 :: b3 :: rest =>
      (((b0 * 256 + b1) * 256 + b2) * 256 + b3) :: bytesToWords rest
  | _ => []

/-- Extend the sixteen message words to the full schedule by appending n
further words. -/
def extendW (w : List Nat) : Nat → List Nat
  | 0 => w
  | n + 1 =>
    let t := w.length
    let nw := w32 (ssig1 (w.getD (t - 2) 0) + w.getD (t - 7) 0 +
                   ssig0 (w.getD (t - 15) 0) + w.getD (t - 16) 0)
    extendW (w ++ [nw]) n

/-- One SHA-256 compression round. -/
def shaRound (st : H8) (kw : Nat × Nat) : H8 :=
  let t1 := w32 (st.h + bsig1 st.e + chf st.e st.f st.g + kw.1 + kw.2)
  let t2 := w32 (bsig0 st.a + majf st.a st.b st.c)
  ⟨w32 (t1 + t2), st.a, st.b, st.c, w32 (st.d + t1), st.e, st.f, st.g⟩

/-- Process one 64-byte block. -/
def shaChunk (st : H8) (chunk : List Nat) : H8 :=
  let w := extendW (bytesToWords chunk) 48
  let r := (shaK.zip w).foldl shaRound st
  ⟨w32 (st.a + r.a), w32 (st.b + r.b), w32 (st.c + r.c), w32 (st.d + r.d),
   w32 (st.e + r.e), w32 (st.f + r.f), w32 (st.g + r.g), w32 (st.h + r.h)⟩

/-- SHA-256 digest of a byte list, as a list of 32 bytes. -/
def sha256Bytes (msg : List Nat) : List Nat :=
  let p := shaPad msg
  let fin := (chunksGo p.length p).foldl shaChunk sha256Init
  toBytesBE 4 fin.a ++ toBytesBE 4 fin.b ++ toBytesBE 4 fin.c ++
  toBytesBE 4 fin.d ++ toBytesBE 4 fin.e ++ toBytesBE 4 fin.f ++
  toBytesBE 4 fin.g ++ toBytesBE 4 fin.h

/-- UTF-8 encoding of one character, as the Python string method encode. -/
def utf8EncodeChar (c : Char) : List Nat :=
  let n := c.toNat
  if n < 0x80 then [n]
  else if n < 0x800 then
    [0xc0 ||| (n >>> 6), 0x80 ||| (n &&& 0x3f)]
  else if n < 0x10000 then
    [0xe0 ||| (n >>> 12), 0x80 ||| ((n >>> 6) &&& 0x3f), 0x80 ||| (n &&& 0x3f)]
  else
    [0xf0 ||| (n >>> 18), 0x80 ||| ((n >>> 12) &&& 0x3f),
     0x80 ||| ((n >>> 6) &&& 0x3f), 0x80 ||| (n &&& 0x3f)]

/-- UTF-8 encoding of a string. -/
def utf8Encode (s : String) : List Nat := s.data.flatMap utf8EncodeChar

/-- get_stable_id from src/anki-trish.py: first four bytes of the SHA-256
digest of the UTF-8 encoded string, big-endian, masked to 31 bits. -/
def get_stable_id (s : String) : Nat :=
  fromBytesBE ((sha256Bytes (utf8Encode s)).take 4) &&& ((1 <<< 31) - 1)

/-! ## Data model: rows, sources, merge (src/anki-trish.py lines 55-112) -/

/-- A table row: an ordered mapping from column name to string value, as a
pandas Series after fillna of the empty string. -/
abbrev Row := List (String × String)

/-- Reading a cell of a row by column name; absent columns read as the
empty string (which also models the membership guards of lines 207-209). -/
def rowGet (r : Row) (col : String) : String :=
  match r.find? (fun kv => kv.1 = col) with
  | some kv => kv.2
  | none => ""

/-- One successfully parsed input table: its block label (upper-cased
filename stem, line 73), its header, and its rows.  Files that are missing
or unreadable are skipped with a warning (lines 67-79) and therefore do
not appear in the list at all. -/
structure Source where
  label : String
  header : List String
  rows : List Row
deriving Repr, DecidableEq

/-- A merged entry: the canonical row and the set of contributing block
labels, modelled as a duplicate-free list. -/
structure MergeEntry where
  row : Row
  blocks : List String
deriving Repr, DecidableEq

/-- Lookup in an association list keyed by strings. -/
def alookup {β : Type} : List (String × β) → String → Option β
  | [], _ => none
  | kv :: rest, k => if kv.1 = k then some kv.2 else alookup rest k

/-- Adding a label to the block set (Python set add). -/
def blocksInsert (b : String) (bs : List String) : List String :=
  if b ∈ bs then bs else bs ++ [b]

/-- Processing one row of one source in the merge loop of lines 89-104:
skip rows with an empty trimmed identifier, key on the lower-cased trimmed
identifier, store the first row seen for a key verbatim, and only add the
block label on later duplicates. -/
def mergeRow (label primaryCol : String) (acc : List (String × MergeEntry))
    (r : Row) : List (String × MergeEntry) :=
  let conditionRaw := pyStrip (rowGet r primaryCol)
  if conditionRaw = "" then acc
  else
    let key := pyLower conditionRaw
    if (alookup acc key).isSome then
      acc.map fun kv =>
        if kv.1 = key then (kv.1, ⟨kv.2.row, blocksInsert label kv.2.blocks⟩)
        else kv
    else acc ++ [(key, ⟨r, [label]⟩)]

/-- The merge state: the column schema taken from the first non-empty
source, and the insertion-ordered merged mapping. -/
structure MergeSt where
  columns : Option (List String)
  merged : List (String × MergeEntry)

/-- Processing one source file in the loop of lines 66-104: empty tables
contribute nothing and do not fix the schema; otherwise the schema is
fixed on first use, and every row is merged keyed by the first column of
this file. -/
def processSource (st : MergeSt) (s : Source) : MergeSt :=
  if s.rows.isEmpty then st
  else
    { columns := if st.columns.isNone then some s.header else st.columns,
      merged := s.rows.foldl (mergeRow s.label (s.header.headD "")) st.merged }

/-- The whole merge over all sources in caller-supplied order. -/
def mergeAll (sources : List Source) : MergeSt :=
  sources.foldl processSource ⟨none, []⟩

/-- One row of the flattened stream of rows the merge loop visits: the
block label and primary-column name of its source, and the row. -/
structure SRow where
  label : String
  primaryCol : String
  row : Row
deriving Repr, DecidableEq

/-- The flattened stream of rows, in visiting order (empty sources are
skipped). -/
def srows (sources : List Source) : List SRow :=
  (sources.filter fun s => !s.rows.isEmpty).flatMap fun s =>
    s.rows.map fun r => ⟨s.label, s.header.headD "", r⟩

/-- Whether the merge loop keeps a stream row: its trimmed primary
identifier is non-empty. -/
def usableB (t : SRow) : Bool := pyStrip (rowGet t.row t.primaryCol) != ""

/-- The normalized key of a stream row. -/
def keyOf (t : SRow) : String := pyLower (pyStrip (rowGet t.row t.primaryCol))

/-- The usable stream rows carrying a given normalized key, in visiting
order. -/
def matchesFor (ts : List SRow) (k : String) : List SRow :=
  ts.filter fun t => usableB t && (keyOf t == k)

/-- The merge step expressed on a stream row. -/
def mergeStep (acc : List (String × MergeEntry)) (t : SRow) :
    List (String × MergeEntry) :=
  mergeRow t.label t.primaryCol acc t.row

/-! ## Card synthesis (src/anki-trish.py lines 120-285) -/

/-- A generated note: its seven field strings, its tag list, and its
stable identifier. -/
structure Note where
  fields : List String
  tags : List String
  guid : String
deriving Repr, DecidableEq

/-- Modelled from the spec: the external deck-package writer genanki
supplies guid_for, a deterministic stable per-note identifier derived from
the argument list alone; modelled as the arguments joined by a double
underscore (the joined string genanki hashes). -/
def guid_for (args : List String) : String := String.intercalate "__" args

/-- Insertion into a sorted list of strings, lexicographically by code
point as Python sorted orders strings. -/
def insertSorted (s : String) : List String → List String
  | [] => [s]
  | t :: ts => if s ≤ t then s :: t :: ts else t :: insertSorted s ts

/-- Python sorted over a list of strings. -/
def sortStr (l : List String) : List String := l.foldr insertSorted []

/-- The prompt lookup of lines 225-232: the display prompt with emphasis
markup and the plain speech prompt, falling back to a generic phrase built
from the column name. -/
def promptFor (col : String) : String × String :=
  if col = "Salient Signs & Symptoms" then
    ("What are the <u>Salient Signs & Symptoms</u> of",
     "What are the Salient Signs and Symptoms of")
  else if col = "Diagnostics" then
    ("How would you <u>Diagnose</u>", "How would you Diagnose")
  else if col = "USMLE Classic Presentation" then
    ("What <u>condition</u> presents as:", "What condition presents as")
  else
    ("What is the <u>" ++ col ++ "</u> of", "What is the " ++ col ++ " of")

/-- The never-miss test of line 268: the flag string is non-empty (Python
truthiness) and its trimmed form starts with an upper-case Y. -/
def nmFlag (neverMiss : String) : Bool :=
  neverMiss != "" && headIs 'Y' (pyStrip neverMiss)

/-- Building the note for one column of one merged entry, from lines
224-285.  The reversed direction applies to the classic-presentation
column only. -/
def mkCardNote (deckTitle : String) (blocks : List String)
    (condition neverMiss moreInfo col v : String) : Note :=
  let pr := promptFor col
  let valDisplay := replNlBr v
  let condDisplay := escapeHtml condition
  let valTts := clean_for_tts v
  let condTts := clean_for_tts condition
  let blockTagsList := (sortStr blocks).map fun b => "TRISH::Blocks::" ++ clean_tag b
  let blockDisplayStr := String.intercalate ", " (sortStr blocks)
  let baseTags := blockTagsList ++ ["TRISH::Conditions::" ++ clean_tag condition]
  let nmTags : List String := if nmFlag neverMiss then ["TRISH::Never_Miss"] else []
  if col = "USMLE Classic Presentation" then
    { fields := [("<div class=\x27label\x27>" ++ pr.1 ++ "</div><br>") ++ valDisplay,
                 condDisplay,
                 (pr.2 ++ ": ") ++ valTts,
                 condTts,
                 neverMiss, moreInfo, blockDisplayStr],
      tags := baseTags ++ ["TRISH::Presentation"] ++ nmTags,
      guid := guid_for [deckTitle, condition, "Presentation"] }
  else
    { fields := [("<div class=\x27label\x27>" ++ pr.1 ++ "</div><br>") ++ condDisplay,
                 valDisplay,
                 ((pr.2 ++ " ") ++ condTts) ++ "?",
                 valTts,
                 neverMiss, moreInfo, blockDisplayStr],
      tags := baseTags ++ ["TRISH::" ++ clean_tag col] ++ nmTags,
      guid := guid_for [deckTitle, condition, col] }

/-- The per-entry column loop of lines 216-285, keeping with each note the
column it was generated for: the primary and the two control columns are
skipped, as are columns whose trimmed value is empty for this row. -/
def cardsForEntryLabeled (deckTitle : String) (cols : List String)
    (e : MergeEntry) : List (String × Note) :=
  let primaryCol := cols.headD ""
  let condition := rowGet e.row primaryCol
  let neverMiss := rowGet e.row "Never Miss"
  let moreInfo0 := rowGet e.row "More Info"
  let moreInfo := if pyStrip moreInfo0 = "" then "" else moreInfo0
  (cols.filter fun c =>
      !(c == primaryCol || c == "Never Miss" || c == "More Info") &&
      (pyStrip (rowGet e.row c) != "")).map fun c =>
    (c, mkCardNote deckTitle e.blocks condition neverMiss moreInfo c
          (rowGet e.row c))

/-- The synthetic version-information note of lines 179-197. -/
def infoNote (deckTitle tag : String) (uniqueCount : Nat) : Note :=
  { fields := ["<b>" ++ deckTitle ++ "</b><br>Version Information",
               "Last Updated: <b>" ++ tag ++ "</b><br>Unique Conditions: " ++
                 toString uniqueCount ++ "<br><br>Check for updates regularly.",
               "Deck Version Information",
               "Updated to version " ++ tag,
               "", "", ""],
    tags := ["TRISH::MetaData"],
    guid := guid_for ["DECK_INFO_CARD", deckTitle] }

/-- The unified pipeline of main: merge all sources, abort cleanly (none)
when no unique condition or no schema was found (lines 110-112, before any
output is written), and otherwise produce the note list of the deck: the
version-information note followed by the per-entry cards (some). -/
def runPipeline (deckTitle tag : String) (sources : List Source) :
    Option (List Note) :=
  let st := mergeAll sources
  let uniqueCount := st.merged.length
  if uniqueCount == 0 || st.columns.isNone then none
  else
    let cols := st.columns.getD []
    some (infoNote deckTitle tag uniqueCount ::
      st.merged.flatMap fun kv =>
        (cardsForEntryLabeled deckTitle cols kv.2).map Prod.snd)

/-! ## Legacy exporter (src/tsv-trish.py lines 14-45) -/

/-- One sheet of a spreadsheet document: its name and its rows of cell
values, a missing cell value being none. -/
structure ODSSheet where
  name : String
  rows : List (List (Option String))
deriving Repr, DecidableEq

/-- export_sheet_to_tsv from src/tsv-trish.py: find the first sheet of the
given name (the loop with break of lines 20-23); when none exists, the
raised error is caught, reported, and the process exits with status one
before any output file is opened (error); otherwise each row becomes one
tab-separated line with missing cells rendered as empty strings (ok, the
list of lines written). -/
def export_sheet_to_tsv (doc : List ODSSheet) (sheetName : String) :
    Except String (List String) :=
  match doc.find? (fun s => s.name = sheetName) with
  | none => Except.error ("Sheet \x27" ++ sheetName ++ "\x27 not found in the workbook")
  | some sheet =>
      Except.ok (sheet.rows.map fun row =>
        String.intercalate "\t" (row.map fun c => c.getD ""))

/-! ## Concrete inputs used by witnesses and counterexamples -/

/-- The canonical example row of the musculoskeletal source. -/
def demoGoutRow : Row := [("Condition", "Gout"), ("Diagnostics", "Joint aspiration")]

/-- The musculoskeletal demo source. -/
def demoMsk : Source := ⟨"MSK", ["Condition", "Diagnostics"], [demoGoutRow]⟩

/-- The cardiology demo source, carrying the same condition in lower case
with a different field value. -/
def demoCardio : Source :=
  ⟨"CARDIO", ["Condition", "Diagnostics"], [[("Condition", "gout"), ("Diagnostics", "ECG")]]⟩

/-- A source whose only row has a blank primary identifier. -/
def demoBlank : Source :=
  ⟨"MSK", ["Condition", "Diagnostics"], [[("Condition", "   "), ("Diagnostics", "X")]]⟩

/-! ## Theorems -/

/-- C3: get_stable_id always returns a value strictly below two to the
thirty-first (top bit cleared), and the masking step coincides with
reduction modulo two to the thirty-first of the big-endian value of the
first four digest bytes.  Determinism across runs holds because the
function is pure: equal input strings give the one defined value. -/
theorem stable_id_31bit (s : String) :
    get_stable_id s < 2 ^ 31 ∧
    get_stable_id s =
      fromBytesBE ((sha256Bytes (utf8Encode s)).take 4) % 2 ^ 31 := by
  constructor
  · exact Nat.lt_of_le_of_lt Nat.and_le_right (by decide)
  · show _ &&& ((1 <<< 31) - 1) = _
    have h31 : (1 : Nat) <<< 31 = 2 ^ 31 := by decide
    rw [h31, Nat.and_pow_two_sub_one_eq_mod]

/-- The SHA-256 model reproduces the official digest of the string abc,
validating the embedded constants and schedule. -/
theorem sha256_test_vector_abc :
    sha256Bytes (utf8Encode "abc") =
      [0xba, 0x78, 0x16, 0xbf, 0x8f, 0x01, 0xcf, 0xea,
       0x41, 0x41, 0x40, 0xde, 0x5d, 0xae, 0x22, 0x23,
       0xb0, 0x03, 0x61, 0xa3, 0x96, 0x17, 0x7a, 0x9c,
       0xb4, 0x10, 0xff, 0x61, 0xf2, 0x00, 0x15, 0xad] := by decide

/-- The SHA-256 model reproduces the official digest of the empty string. -/
theorem sha256_test_vector_empty :
    sha256Bytes (utf8Encode "") =
      [0xe3, 0xb0, 0xc4, 0x42, 0x98, 0xfc, 0x1c, 0x14,
       0x9a, 0xfb, 0xf4, 0xc8, 0x99, 0x6f, 0xb9, 0x24,
       0x27, 0xae, 0x41, 0xe4, 0x64, 0x9b, 0x93, 0x4c,
       0xa4, 0x95, 0x99, 0x1b, 0x78, 0x52, 0xb8, 0x55] := by decide

/-- C10: when no sheet of the document bears the requested name, the
legacy exporter fails with the error the code raises (the raised error is
caught, reported, and turned into exit status one before any output file
is opened, which the error constructor models); when the sheet exists,
the output is one tab-separated line per row with missing cells rendered
as empty strings. -/
theorem export_sheet_spec (doc : List ODSSheet) (sheetName : String) :
    ((∀ s ∈ doc, s.name ≠ sheetName) →
      export_sheet_to_tsv doc sheetName =
        Except.error ("Sheet \x27" ++ sheetName ++ "\x27 not found in the workbook")) ∧
    (∀ sheet, doc.find? (fun s => s.name = sheetName) = some sheet →
      export_sheet_to_tsv doc sheetName =
        Except.ok (sheet.rows.map fun row =>
          String.intercalate "\t" (row.map fun c => c.getD ""))) := by
  constructor
  · intro h
    have hnone : doc.find? (fun s => s.name = sheetName) = none := by
      rw [List.find?_eq_none]
      intro s hs
      simpa using h s hs
    unfold export_sheet_to_tsv
    rw [hnone]
  · intro sheet h
    unfold export_sheet_to_tsv
    rw [h]

/-- Witness for C10 at a concrete document: a missing sheet name errors,
a present one exports rows with empty strings for missing cells. -/
theorem export_sheet_spec_witness :
    export_sheet_to_tsv [⟨"Data", [[some "x", none], [some "y", some "z"]]⟩] "Missing" =
      Except.error ("Sheet \x27" ++ "Missing" ++ "\x27 not found in the workbook") ∧
    export_sheet_to_tsv [⟨"Data", [[some "x", none], [some "y", some "z"]]⟩] "Data" =
      Except.ok (([[some "x", none], [some "y", some "z"]] : List (List (Option String))).map
        fun row => String.intercalate "\t" (row.map fun c => c.getD "")) :=
  ⟨(export_sheet_spec [⟨"Data", [[some "x", none], [some "y", some "z"]]⟩] "Missing").1
      (by decide),
   (export_sheet_spec [⟨"Data", [[some "x", none], [some "y", some "z"]]⟩] "Data").2
      ⟨"Data", [[some "x", none], [some "y", some "z"]]⟩ (by decide)⟩

/-- C6 counterexample: an input containing markup tags and two embedded
newlines whose speech form refutes both conjuncts of the claim.  The tag
pattern of the code leaves the stray opening bracket that is not part of
a well-formed tag, so a markup character survives; and the explicit
output shows the second, trailing newline ending up as a bare trailing
period rather than the claimed two-character period-space sequence,
because the final strip removes the trailing space. -/
theorem clean_for_tts_markup_counterexample :
    clean_for_tts "x < y <b>bold</b>\nz\n" = "x < y bold. z." ∧
    '<' ∈ (clean_for_tts "x < y <b>bold</b>\nz\n").data := by decide

/-- Tag removal and well-formedness scan in step: on a well-tagged text
the single pass removes every bracket. -/
theorem removeTagsGo_no_markup :
    ∀ (fuel : Nat) (cs : List Char), wellTaggedGo fuel cs = true →
      ∀ c ∈ removeTagsGo fuel cs, c ≠ '<' ∧ c ≠ '>' := by
  intro fuel
  induction fuel with
  | zero =>
    intro cs h c hc
    cases cs with
    | nil => simp [removeTagsGo] at hc
    | cons d ds => simp [wellTaggedGo, List.isEmpty] at h
  | succ f ih =>
    intro cs h c hc
    cases cs with
    | nil => simp [removeTagsGo] at hc
    | cons d ds =>
      by_cases hd : d = '<'
      · subst hd
        simp only [wellTaggedGo, if_pos rfl] at h
        simp only [removeTagsGo, if_pos rfl] at hc
        cases ht : tagEnd ds with
        | none => rw [ht] at h; exact absurd h (by simp)
        | some j =>
          rw [ht] at h hc
          exact ih _ h c hc
      · by_cases hg : d = '>'
        · subst hg
          simp [wellTaggedGo, hd] at h
        · simp only [wellTaggedGo, if_neg hd, if_neg hg] at h
          simp only [removeTagsGo, if_neg hd] at hc
          rcases List.mem_cons.mp hc with rfl | hc'
          · exact ⟨hd, hg⟩
          · exact ih _ h c hc'

/-- Elements of the tag-removed text come from the text. -/
theorem mem_of_mem_removeTagsGo :
    ∀ (fuel : Nat) (cs : List Char) (c : Char), c ∈ removeTagsGo fuel cs → c ∈ cs := by
  intro fuel
  induction fuel with
  | zero =>
    intro cs c hc
    simp only [removeTagsGo] at hc
    exact hc
  | succ f ih =>
    intro cs c hc
    cases cs with
    | nil =>
      simp only [removeTagsGo] at hc
      exact hc
    | cons d ds =>
      by_cases hd : d = '<'
      · simp only [removeTagsGo, if_pos hd] at hc
        cases ht : tagEnd ds with
        | none =>
          rw [ht] at hc
          rcases List.mem_cons.mp hc with rfl | hc'
          · exact List.mem_cons_self _ _
          · exact List.mem_cons_of_mem _ (ih _ _ hc')
        | some j =>
          rw [ht] at hc
          exact List.mem_cons_of_mem _ (List.mem_of_mem_drop (ih _ _ hc))
      · simp only [removeTagsGo, if_neg hd] at hc
        rcases List.mem_cons.mp hc with rfl | hc'
        · exact List.mem_cons_self _ _
        · exact List.mem_cons_of_mem _ (ih _ _ hc')

/-- Elements of the stripped text come from the text. -/
theorem mem_of_mem_stripChars (cs : List Char) (c : Char)
    (h : c ∈ stripChars cs) : c ∈ cs := by
  unfold stripChars dropSpace at h
  have h1 := (List.dropWhile_sublist isPySpace).subset h
  have h2 := List.mem_reverse.mp h1
  have h3 := (List.dropWhile_sublist isPySpace).subset h2
  exact List.mem_reverse.mp h3

/-- The newline replacement leaves no newline character. -/
theorem replNl_no_newline (cs : List Char) : '\n' ∉ replNl cs := by
  induction cs with
  | nil => simp [replNl]
  | cons d ds ih =>
    by_cases hd : d = '\n'
    · subst hd
      simp only [replNl, if_pos rfl]
      intro h
      rcases List.mem_cons.mp h with h1 | h2
      · exact absurd h1 (by decide)
      · rcases List.mem_cons.mp h2 with h3 | h4
        · exact absurd h3 (by decide)
        · exact ih h4
    · simp only [replNl, if_neg hd]
      intro h
      rcases List.mem_cons.mp h with h1 | h2
      · exact hd h1.symm
      · exact ih h2

/-- C6 amended: clean_for_tts replaces every newline by a period and a
space before tag removal, so for every input whatsoever its output
contains no newline character (the final trim leaves a trailing newline
as a bare trailing period, as the counterexample output shows); and
whenever the newline-converted input consists only of plain text and
well-formed markup tags (an opening bracket, a non-empty body without
further opening brackets, then the first closing bracket), the speech
form contains no markup character.  A stray bracket outside such a tag
can survive, which is what the counterexample exhibits. -/
theorem clean_for_tts_sanitizes (s : String) :
    '\n' ∉ (clean_for_tts s).data ∧
    (wellTagged (replNl s.data) = true →
      ∀ c ∈ (clean_for_tts s).data, c ≠ '<' ∧ c ≠ '>') := by
  constructor
  · intro hc
    have h1 : '\n' ∈ removeTags (replNl s.data) := mem_of_mem_stripChars _ _ hc
    have h2 : '\n' ∈ replNl s.data := mem_of_mem_removeTagsGo _ _ _ h1
    exact replNl_no_newline _ h2
  · intro h c hc
    have h1 : c ∈ removeTags (replNl s.data) := mem_of_mem_stripChars _ _ hc
    exact removeTagsGo_no_markup _ _ h c h1

/-- Witness for C6 at a concrete input containing a tag and a newline:
the newline-free part applies outright, and the well-formedness premise
of the markup part is discharged by evaluation. -/
theorem clean_for_tts_sanitizes_witness :
    wellTagged (replNl "See <b>table</b>\nrow 2".data) = true ∧
    ('\n' ∉ (clean_for_tts "See <b>table</b>\nrow 2").data ∧
     ∀ c ∈ (clean_for_tts "See <b>table</b>\nrow 2").data, c ≠ '<' ∧ c ≠ '>') :=
  ⟨by decide,
   (clean_for_tts_sanitizes "See <b>table</b>\nrow 2").1,
   (clean_for_tts_sanitizes "See <b>table</b>\nrow 2").2 (by decide)⟩

/-- C9: the deduplication keys on the trimmed lower-cased identifier (both
source orders merge to the single key gout), but the card identifier and
the displayed identifier use the verbatim identifier of the first-seen
row, so swapping the source order changes the GUID and the display of the
merged entry, as evaluated on the two demo sources. -/
theorem guid_uses_verbatim_condition :
    ((mergeAll [demoMsk, demoCardio]).merged.map Prod.fst = ["gout"] ∧
     (mergeAll [demoCardio, demoMsk]).merged.map Prod.fst = ["gout"]) ∧
    ((((runPipeline "TRISH" "v1" [demoMsk, demoCardio]).getD []).get? 1).map Note.guid =
       some "TRISH__Gout__Diagnostics" ∧
     (((runPipeline "TRISH" "v1" [demoCardio, demoMsk]).getD []).get? 1).map Note.guid =
       some "TRISH__gout__Diagnostics") ∧
    ((((runPipeline "TRISH" "v1" [demoMsk, demoCardio]).getD []).get? 1).map
        (fun n => n.fields.getD 0 "") ≠
     (((runPipeline "TRISH" "v1" [demoCardio, demoMsk]).getD []).get? 1).map
        (fun n => n.fields.getD 0 "")) := by decide

/-! ## Association-list and merge-step lemmas -/

theorem alookup_append_of_isSome {β : Type} (l l' : List (String × β)) (k : String)
    (h : (alookup l k).isSome) : alookup (l ++ l') k = alookup l k := by
  induction l with
  | nil => simp [alookup] at h
  | cons kv rest ih =>
    by_cases hk : kv.1 = k
    · simp [alookup, hk]
    · simp only [List.cons_append, alookup, if_neg hk] at h ⊢
      exact ih h

theorem alookup_append_of_none {β : Type} (l l' : List (String × β)) (k : String)
    (h : alookup l k = none) : alookup (l ++ l') k = alookup l' k := by
  induction l with
  | nil => simp
  | cons kv rest ih =>
    by_cases hk : kv.1 = k
    · simp [alookup, hk] at h
    · simp only [alookup, if_neg hk] at h
      simp only [List.cons_append, alookup, if_neg hk]
      exact ih h

theorem alookup_single_eq {β : Type} (k : String) (v : β) :
    alookup [(k, v)] k = some v := by
  simp [alookup]

theorem alookup_update (l : List (String × MergeEntry)) (key : String)
    (g : MergeEntry → MergeEntry) (k : String) :
    alookup (l.map fun kv => if kv.1 = key then (kv.1, g kv.2) else kv) k =
      if key = k then (alookup l k).map g else alookup l k := by
  induction l with
  | nil => simp [alookup]
  | cons kv rest ih =>
    simp only [List.map_cons]
    by_cases h1 : kv.1 = key
    · by_cases h2 : kv.1 = k
      · have hkk : key = k := h1.symm.trans h2
        simp [alookup, h1, h2, hkk]
      · have hkk : ¬ key = k := fun he => h2 (h1.trans he)
        have hkk2 : ¬ k = key := fun he => hkk he.symm
        simp [alookup, h1, h2, hkk, hkk2, ih]
    · by_cases h2 : kv.1 = k
      · have hkk : ¬ key = k := fun he => h1 (h2.trans he.symm)
        have hkk2 : ¬ k = key := fun he => hkk he.symm
        simp [alookup, h1, h2, hkk, hkk2]
      · simp [alookup, h1, h2, ih]

theorem keys_map_update (l : List (String × MergeEntry)) (key : String)
    (g : MergeEntry → MergeEntry) :
    (l.map fun kv => if kv.1 = key then (kv.1, g kv.2) else kv).map Prod.fst =
      l.map Prod.fst := by
  rw [List.map_map]
  apply List.map_congr_left
  intro kv _
  by_cases h : kv.1 = key <;> simp [h]

theorem alookup_none_iff_not_mem_keys {β : Type} (l : List (String × β)) (k : String) :
    alookup l k = none ↔ k ∉ l.map Prod.fst := by
  induction l with
  | nil => simp [alookup]
  | cons kv rest ih =>
    by_cases hk : kv.1 = k
    · simp [alookup, hk]
    · simp only [alookup, if_neg hk, List.map_cons, List.mem_cons, ih]
      constructor
      · rintro h (h1 | h2)
        · exact hk h1.symm
        · exact h h2
      · intro h
        exact fun h2 => h (Or.inr h2)

theorem mem_blocksInsert (b l : String) (bs : List String) :
    b ∈ blocksInsert l bs ↔ b = l ∨ b ∈ bs := by
  unfold blocksInsert
  by_cases h : l ∈ bs
  · rw [if_pos h]
    constructor
    · exact Or.inr
    · rintro (rfl | hb)
      · exact h
      · exact hb
  · rw [if_neg h]
    simp [List.mem_append, or_comm]

theorem usableB_false_iff (t : SRow) :
    usableB t = false ↔ pyStrip (rowGet t.row t.primaryCol) = "" := by
  unfold usableB
  simp

theorem mergeStep_not_usable (acc : List (String × MergeEntry)) (t : SRow)
    (h : usableB t = false) : mergeStep acc t = acc := by
  unfold mergeStep mergeRow
  rw [if_pos ((usableB_false_iff t).mp h)]

theorem mergeStep_usable_present (acc : List (String × MergeEntry)) (t : SRow)
    (hu : usableB t = true) (h : (alookup acc (keyOf t)).isSome) :
    mergeStep acc t = acc.map fun kv =>
      if kv.1 = keyOf t then (kv.1, ⟨kv.2.row, blocksInsert t.label kv.2.blocks⟩)
      else kv := by
  have hne : ¬ pyStrip (rowGet t.row t.primaryCol) = "" := by
    intro he
    rw [(usableB_false_iff t).mpr he] at hu
    exact absurd hu (by simp)
  unfold mergeStep mergeRow
  simp only [if_neg hne]
  have h' : (alookup acc (pyLower (pyStrip (rowGet t.row t.primaryCol)))).isSome = true := h
  rw [if_pos h']
  rfl

theorem mergeStep_usable_absent (acc : List (String × MergeEntry)) (t : SRow)
    (hu : usableB t = true) (h : alookup acc (keyOf t) = none) :
    mergeStep acc t = acc ++ [(keyOf t, ⟨t.row, [t.label]⟩)] := by
  have hne : ¬ pyStrip (rowGet t.row t.primaryCol) = "" := by
    intro he
    rw [(usableB_false_iff t).mpr he] at hu
    exact absurd hu (by simp)
  unfold mergeStep mergeRow
  simp only [if_neg hne]
  have h' : alookup acc (pyLower (pyStrip (rowGet t.row t.primaryCol))) = none := h
  rw [h']
  simp
  rfl

theorem matchesFor_cons (t : SRow) (ts : List SRow) (k : String) :
    matchesFor (t :: ts) k =
      if usableB t && (keyOf t == k) then t :: matchesFor ts k
      else matchesFor ts k := by
  unfold matchesFor
  rw [List.filter_cons]

/-- Folding the merge over a stream preserves the stored row of an
existing key and accumulates exactly the labels of the matching stream
rows into its block set. -/
theorem foldl_lookup_some (ts : List SRow) :
    ∀ (acc : List (String × MergeEntry)) (k : String) (e : MergeEntry),
    alookup acc k = some e →
    ∃ e', alookup (ts.foldl mergeStep acc) k = some e' ∧ e'.row = e.row ∧
      ∀ b, b ∈ e'.blocks ↔ (b ∈ e.blocks ∨ b ∈ (matchesFor ts k).map SRow.label) := by
  induction ts with
  | nil =>
    intro acc k e h
    exact ⟨e, h, rfl, by simp [matchesFor]⟩
  | cons t ts ih =>
    intro acc k e h
    rw [List.foldl_cons]
    cases hu : usableB t with
    | false =>
      have hmm : matchesFor (t :: ts) k = matchesFor ts k := by
        rw [matchesFor_cons, if_neg]
        simp [hu]
      rw [mergeStep_not_usable acc t hu]
      obtain ⟨e', h1, h2, h3⟩ := ih acc k e h
      exact ⟨e', h1, h2, fun b => by rw [h3 b, hmm]⟩
    | true =>
      by_cases hk : keyOf t = k
      · have hp : (alookup acc (keyOf t)).isSome := by rw [hk, h]; rfl
        rw [mergeStep_usable_present acc t hu hp]
        have hup := alookup_update acc (keyOf t)
          (fun m => ⟨m.row, blocksInsert t.label m.blocks⟩) k
        rw [if_pos hk, h] at hup
        obtain ⟨e', h1, h2, h3⟩ :=
          ih _ k ⟨e.row, blocksInsert t.label e.blocks⟩ hup
        refine ⟨e', h1, h2, fun b => ?_⟩
        rw [h3 b]
        have hcond : (usableB t && (keyOf t == k)) = true := by
          rw [hu, hk]; simp
        rw [matchesFor_cons, if_pos hcond]
        simp only [List.map_cons, List.mem_cons, mem_blocksInsert]
        tauto
      · have hmm : matchesFor (t :: ts) k = matchesFor ts k := by
          rw [matchesFor_cons, if_neg]
          simp [hk]
        cases hq : alookup acc (keyOf t) with
        | some e2 =>
          rw [mergeStep_usable_present acc t hu (by rw [hq]; rfl)]
          have hup := alookup_update acc (keyOf t)
            (fun m => ⟨m.row, blocksInsert t.label m.blocks⟩) k
          rw [if_neg hk, h] at hup
          obtain ⟨e', h1, h2, h3⟩ := ih _ k e hup
          exact ⟨e', h1, h2, fun b => by rw [h3 b, hmm]⟩
        | none =>
          rw [mergeStep_usable_absent acc t hu hq]
          have hl : alookup (acc ++ [(keyOf t, ⟨t.row, [t.label]⟩)]) k = some e := by
            rw [alookup_append_of_isSome acc _ k (by rw [h]; rfl)]
            exact h
          obtain ⟨e', h1, h2, h3⟩ := ih _ k e hl
          exact ⟨e', h1, h2, fun b => by rw [h3 b, hmm]⟩

/-- Folding the merge over a stream starting from an accumulator without
the key: either no stream row carries the key and it stays absent, or the
entry created holds the row of the first matching stream row and exactly
the labels of all matching stream rows. -/
theorem foldl_lookup_none (ts : List SRow) :
    ∀ (acc : List (String × MergeEntry)) (k : String),
    alookup acc k = none →
    (matchesFor ts k = [] ∧ alookup (ts.foldl mergeStep acc) k = none) ∨
    (∃ t rest, matchesFor ts k = t :: rest ∧
      ∃ e', alookup (ts.foldl mergeStep acc) k = some e' ∧ e'.row = t.row ∧
        ∀ b, b ∈ e'.blocks ↔ b ∈ (matchesFor ts k).map SRow.label) := by
  induction ts with
  | nil => intro acc k h; exact Or.inl ⟨rfl, h⟩
  | cons t ts ih =>
    intro acc k h
    rw [List.foldl_cons]
    cases hu : usableB t with
    | false =>
      have hmm : matchesFor (t :: ts) k = matchesFor ts k := by
        rw [matchesFor_cons, if_neg]
        simp [hu]
      rw [mergeStep_not_usable acc t hu, hmm]
      exact ih acc k h
    | true =>
      by_cases hk : keyOf t = k
      · have hq : alookup acc (keyOf t) = none := by rw [hk]; exact h
        rw [mergeStep_usable_absent acc t hu hq]
        have hl : alookup (acc ++ [(keyOf t, ⟨t.row, [t.label]⟩)]) k =
            some ⟨t.row, [t.label]⟩ := by
          rw [alookup_append_of_none acc _ k h, hk, alookup_single_eq]
        obtain ⟨e', h1, h2, h3⟩ := foldl_lookup_some ts _ k ⟨t.row, [t.label]⟩ hl
        right
        have hcond : (usableB t && (keyOf t == k)) = true := by
          rw [hu, hk]; simp
        have hmm : matchesFor (t :: ts) k = t :: matchesFor ts k := by
          rw [matchesFor_cons, if_pos hcond]
        refine ⟨t, matchesFor ts k, hmm, e', h1, h2, fun b => ?_⟩
        rw [h3 b, hmm]
        simp
      · have hmm : matchesFor (t :: ts) k = matchesFor ts k := by
          rw [matchesFor_cons, if_neg]
          simp [hk]
        rw [hmm]
        cases hq : alookup acc (keyOf t) with
        | some e2 =>
          rw [mergeStep_usable_present acc t hu (by rw [hq]; rfl)]
          have hup := alookup_update acc (keyOf t)
            (fun m => ⟨m.row, blocksInsert t.label m.blocks⟩) k
          rw [if_neg hk, h] at hup
          exact ih _ k hup
        | none =>
          rw [mergeStep_usable_absent acc t hu hq]
          have hl : alookup (acc ++ [(keyOf t, ⟨t.row, [t.label]⟩)]) k = none := by
            rw [alookup_append_of_none acc _ k h]
            simp [alookup, hk]
          exact ih _ k hl

/-- The merge fold keeps the keys of the accumulator duplicate-free. -/
theorem foldl_keys_nodup (ts : List SRow) :
    ∀ acc : List (String × MergeEntry), (acc.map Prod.fst).Nodup →
      ((ts.foldl mergeStep acc).map Prod.fst).Nodup := by
  induction ts with
  | nil => intro acc h; exact h
  | cons t ts ih =>
    intro acc h
    rw [List.foldl_cons]
    cases hu : usableB t with
    | false =>
      rw [mergeStep_not_usable acc t hu]
      exact ih acc h
    | true =>
      cases hq : alookup acc (keyOf t) with
      | some e2 =>
        rw [mergeStep_usable_present acc t hu (by rw [hq]; rfl)]
        apply ih
        have hkeys : (List.map Prod.fst (acc.map fun kv =>
            if kv.1 = keyOf t then
              (kv.1, (⟨kv.2.row, blocksInsert t.label kv.2.blocks⟩ : MergeEntry))
            else kv)) = List.map Prod.fst acc :=
          keys_map_update acc (keyOf t) (fun m => ⟨m.row, blocksInsert t.label m.blocks⟩)
        rw [hkeys]
        exact h
      | none =>
        rw [mergeStep_usable_absent acc t hu hq]
        apply ih
        rw [List.map_append]
        have hnm : keyOf t ∉ acc.map Prod.fst :=
          (alookup_none_iff_not_mem_keys acc _).mp hq
        simp [List.nodup_append, h, hnm]

/-- The merged mapping of the source fold equals the row-stream fold. -/
theorem foldl_processSource_merged (sources : List Source) :
    ∀ st : MergeSt, (sources.foldl processSource st).merged =
      (srows sources).foldl mergeStep st.merged := by
  induction sources with
  | nil => intro st; rfl
  | cons s rest ih =>
    intro st
    rw [List.foldl_cons]
    cases he : s.rows.isEmpty with
    | true =>
      have h1 : processSource st s = st := by simp [processSource, he]
      have h2 : srows (s :: rest) = srows rest := by
        unfold srows
        rw [List.filter_cons]
        simp [he]
      rw [h1, h2, ih st]
    | false =>
      have h2 : srows (s :: rest) =
          s.rows.map (fun r => ⟨s.label, s.header.headD "", r⟩) ++ srows rest := by
        unfold srows
        rw [List.filter_cons]
        simp [he]
      rw [h2, List.foldl_append, ih]
      congr 1
      unfold processSource
      rw [if_neg (by simp [he])]
      rw [List.foldl_map]
      rfl

/-- The merged mapping of the whole pipeline equals the row-stream fold
from the empty accumulator. -/
theorem mergeAll_merged_eq (sources : List Source) :
    (mergeAll sources).merged = (srows sources).foldl mergeStep [] :=
  foldl_processSource_merged sources ⟨none, []⟩

/-- C1: merge precedence over any sequence of input tables in
caller-supplied order.  The merged mapping has at most one entry per
normalized key (its key list is duplicate-free); every usable row (one
with a non-empty trimmed primary identifier) has an entry under its
normalized key; and each entry stores verbatim the row of the first
usable stream row carrying its key, while its origin set holds exactly
the block labels of the sources that contributed a row with that key. -/
theorem merge_precedence (sources : List Source) :
    (((mergeAll sources).merged.map Prod.fst).Nodup) ∧
    (∀ t ∈ srows sources, usableB t = true →
      (alookup (mergeAll sources).merged (keyOf t)).isSome) ∧
    (∀ k e, alookup (mergeAll sources).merged k = some e →
      (∃ t rest, matchesFor (srows sources) k = t :: rest ∧ e.row = t.row) ∧
      (∀ b, b ∈ e.blocks ↔ b ∈ (matchesFor (srows sources) k).map SRow.label)) := by
  have hm := mergeAll_merged_eq sources
  refine ⟨?_, ?_, ?_⟩
  · rw [hm]
    exact foldl_keys_nodup _ [] (by simp)
  · intro t ht hu
    rw [hm]
    rcases foldl_lookup_none (srows sources) [] (keyOf t) rfl with
      ⟨hemp, _⟩ | ⟨t0, rest, _, e', h1, _, _⟩
    · exfalso
      have hmem : t ∈ matchesFor (srows sources) (keyOf t) := by
        unfold matchesFor
        rw [List.mem_filter]
        exact ⟨ht, by rw [hu]; simp⟩
      rw [hemp] at hmem
      exact absurd hmem (List.not_mem_nil t)
    · rw [h1]; rfl
  · intro k e he
    rw [hm] at he
    rcases foldl_lookup_none (srows sources) [] k rfl with
      ⟨_, hnone⟩ | ⟨t0, rest, hcons, e', h1, h2, h3⟩
    · rw [he] at hnone
      exact absurd hnone (by simp)
    · rw [he] at h1
      cases Option.some.inj h1
      exact ⟨⟨t0, rest, hcons, h2⟩, h3⟩

/-- Witness for C1 on the two demo sources sharing the condition gout in
different letter cases: the canonical row is the first-seen one and the
origin set covers both block labels. -/
theorem merge_precedence_witness :
    (∃ t rest, matchesFor (srows [demoMsk, demoCardio]) "gout" = t :: rest ∧
      (⟨demoGoutRow, ["MSK", "CARDIO"]⟩ : MergeEntry).row = t.row) ∧
    (∀ b, b ∈ (⟨demoGoutRow, ["MSK", "CARDIO"]⟩ : MergeEntry).blocks ↔
      b ∈ (matchesFor (srows [demoMsk, demoCardio]) "gout").map SRow.label) :=
  (merge_precedence [demoMsk, demoCardio]).2.2 "gout"
    ⟨demoGoutRow, ["MSK", "CARDIO"]⟩ (by decide)

/-- A stream without usable rows leaves the accumulator unchanged. -/
theorem foldl_all_not_usable (ts : List SRow) :
    ∀ acc, (∀ t ∈ ts, usableB t = false) → ts.foldl mergeStep acc = acc := by
  induction ts with
  | nil => intro acc _; rfl
  | cons t ts ih =>
    intro acc h
    rw [List.foldl_cons, mergeStep_not_usable acc t (h t (List.mem_cons_self t ts)),
      ih acc (fun u hu => h u (List.mem_cons_of_mem t hu))]

/-- C7: when no usable row exists across all sources (every row of every
non-empty source has an empty trimmed primary identifier, which also
covers the case of no non-empty parseable source at all), the unified
pipeline aborts cleanly before the package-writing step: the run result
is none, the diagnostic early return of the code, and no output archive
is produced. -/
theorem empty_dataset_abort (deckTitle tag : String) (sources : List Source)
    (h : ∀ t ∈ srows sources, usableB t = false) :
    runPipeline deckTitle tag sources = none := by
  have hmerged : (mergeAll sources).merged = [] := by
    rw [mergeAll_merged_eq, foldl_all_not_usable _ [] h]
  simp [runPipeline, hmerged]

/-- Witness for C7: a source whose only row has a blank identifier makes
the pipeline abort. -/
theorem empty_dataset_abort_witness :
    runPipeline "TRISH" "v1" [demoBlank] = none :=
  empty_dataset_abort "TRISH" "v1" [demoBlank] (by decide)

/-! ## Card-synthesis lemmas -/

/-- Membership inversion for the per-entry column loop: every produced
pair pairs a column of the schema with the note built by mkCardNote from
that entry and that column. -/
theorem mem_cardsForEntryLabeled (dt : String) (cols : List String)
    (e : MergeEntry) (c : String) (n : Note)
    (h : (c, n) ∈ cardsForEntryLabeled dt cols e) :
    c ∈ cols ∧
    n = mkCardNote dt e.blocks (rowGet e.row (cols.headD ""))
          (rowGet e.row "Never Miss")
          (if pyStrip (rowGet e.row "More Info") = "" then ""
           else rowGet e.row "More Info")
          c (rowGet e.row c) := by
  unfold cardsForEntryLabeled at h
  simp only [List.mem_map] at h
  obtain ⟨c0, hc0, heq⟩ := h
  rw [List.mem_filter] at hc0
  rw [Prod.mk.injEq] at heq
  obtain ⟨rfl, rfl⟩ := heq
  exact ⟨hc0.1, rfl⟩

/-- The stable identifier of a synthesized note is the external identifier
function applied to the deck title, the identifier value, and the column
name or the literal Presentation. -/
theorem mkCardNote_guid (dt : String) (blocks : List String)
    (condition neverMiss moreInfo c v : String) :
    (mkCardNote dt blocks condition neverMiss moreInfo c v).guid =
      guid_for [dt, condition,
        if c = "USMLE Classic Presentation" then "Presentation" else c] := by
  by_cases hp : c = "USMLE Classic Presentation"
  · subst hp
    rfl
  · simp only [mkCardNote, if_neg hp]

/-- C2: the stable identifier of a produced card depends only on the deck
title, the verbatim identifier value of the canonical row, and the column
name (the literal Presentation for the reversed variant).  Two entries
whose canonical rows agree on the primary-identifier value receive
identical GUIDs for any shared column, whatever their other column
values, flags, links, or origin sets. -/
theorem guid_depends_only_on_key_triple (dt : String) (cols : List String)
    (e e' : MergeEntry) (c : String) (n n' : Note)
    (hrow : rowGet e.row (cols.headD "") = rowGet e'.row (cols.headD ""))
    (h : (c, n) ∈ cardsForEntryLabeled dt cols e)
    (h' : (c, n') ∈ cardsForEntryLabeled dt cols e') :
    n.guid = n'.guid ∧
    n.guid = guid_for [dt, rowGet e.row (cols.headD ""),
      if c = "USMLE Classic Presentation" then "Presentation" else c] := by
  obtain ⟨-, rfl⟩ := mem_cardsForEntryLabeled dt cols e c n h
  obtain ⟨-, rfl⟩ := mem_cardsForEntryLabeled dt cols e' c n' h'
  constructor
  · rw [mkCardNote_guid, mkCardNote_guid, hrow]
  · rw [mkCardNote_guid]

/-- A second demo row sharing the condition of demoGoutRow but differing
in every other column value. -/
def demoRowB : Row := [("Condition", "Gout"), ("Diagnostics", "ECG")]

/-- Witness for C2: changing the Diagnostics value (and the origin set)
leaves the GUID of the Diagnostics card unchanged. -/
theorem guid_depends_only_on_key_triple_witness :
    (mkCardNote "TRISH" ["MSK"] "Gout" "" "" "Diagnostics" "Joint aspiration").guid =
      (mkCardNote "TRISH" ["CARDIO"] "Gout" "" "" "Diagnostics" "ECG").guid ∧
    (mkCardNote "TRISH" ["MSK"] "Gout" "" "" "Diagnostics" "Joint aspiration").guid =
      guid_for ["TRISH", rowGet demoGoutRow "Condition",
        if "Diagnostics" = "USMLE Classic Presentation" then "Presentation"
        else "Diagnostics"] :=
  guid_depends_only_on_key_triple "TRISH" ["Condition", "Diagnostics"]
    ⟨demoGoutRow, ["MSK"]⟩ ⟨demoRowB, ["CARDIO"]⟩ "Diagnostics" _ _
    (by decide) (by decide) (by decide)

/-- C4: per-column card direction.  Every non-control column of the
schema whose trimmed value is non-empty for the canonical row yields a
card; for the classic-presentation column the question display contains
the display form of the column value (newlines rendered as break tags)
and the answer display is the display form of the identifier (escaped for
markup safety), while every other column produces the inverse mapping. -/
theorem reversed_card_direction (dt : String) (cols : List String)
    (e : MergeEntry) (c : String)
    (hc : c ∈ cols)
    (hcp : c ≠ cols.headD "") (hcn : c ≠ "Never Miss") (hcm : c ≠ "More Info")
    (hv : pyStrip (rowGet e.row c) ≠ "") :
    ∃ n, (c, n) ∈ cardsForEntryLabeled dt cols e ∧
      (if c = "USMLE Classic Presentation" then
        (∃ p, n.fields.head? = some (p ++ replNlBr (rowGet e.row c))) ∧
          n.fields.get? 1 = some (escapeHtml (rowGet e.row (cols.headD "")))
      else
        (∃ p, n.fields.head? = some (p ++ escapeHtml (rowGet e.row (cols.headD "")))) ∧
          n.fields.get? 1 = some (replNlBr (rowGet e.row c))) := by
  refine ⟨mkCardNote dt e.blocks (rowGet e.row (cols.headD ""))
      (rowGet e.row "Never Miss")
      (if pyStrip (rowGet e.row "More Info") = "" then ""
       else rowGet e.row "More Info")
      c (rowGet e.row c), ?_, ?_⟩
  · unfold cardsForEntryLabeled
    simp only [List.mem_map]
    refine ⟨c, ?_, rfl⟩
    rw [List.mem_filter]
    refine ⟨hc, ?_⟩
    show (!(c == cols.headD "" || c == "Never Miss" || c == "More Info") &&
      (pyStrip (rowGet e.row c) != "")) = true
    have h1 : (c == cols.headD "") = false := beq_eq_false_iff_ne.mpr hcp
    have h2 : (c == "Never Miss") = false := beq_eq_false_iff_ne.mpr hcn
    have h3 : (c == "More Info") = false := beq_eq_false_iff_ne.mpr hcm
    have h4 : (pyStrip (rowGet e.row c) != "") = true := bne_iff_ne.mpr hv
    rw [h1, h2, h3, h4]
    rfl
  · by_cases hp : c = "USMLE Classic Presentation"
    · rw [if_pos hp]
      simp only [mkCardNote, if_pos hp]
      exact ⟨⟨_, rfl⟩, rfl⟩
    · rw [if_neg hp]
      simp only [mkCardNote, if_neg hp]
      exact ⟨⟨_, rfl⟩, rfl⟩

/-- A demo row carrying a classic-presentation value. -/
def demoRowP : Row :=
  [("Condition", "Gout"), ("USMLE Classic Presentation", "Acute monoarticular big-toe pain")]

/-- Witness for C4 at the reversed column of a concrete row. -/
theorem reversed_card_direction_witness :
    ∃ n, ("USMLE Classic Presentation", n) ∈
        cardsForEntryLabeled "TRISH" ["Condition", "USMLE Classic Presentation"]
          (⟨demoRowP, ["MSK"]⟩ : MergeEntry) ∧
      (if "USMLE Classic Presentation" = "USMLE Classic Presentation" then
        (∃ p, n.fields.head? = some (p ++
            replNlBr (rowGet (⟨demoRowP, ["MSK"]⟩ : MergeEntry).row
              "USMLE Classic Presentation"))) ∧
          n.fields.get? 1 = some (escapeHtml (rowGet (⟨demoRowP, ["MSK"]⟩ : MergeEntry).row
            ((["Condition", "USMLE Classic Presentation"] : List String).headD "")))
      else
        (∃ p, n.fields.head? = some (p ++
            escapeHtml (rowGet (⟨demoRowP, ["MSK"]⟩ : MergeEntry).row
              ((["Condition", "USMLE Classic Presentation"] : List String).headD "")))) ∧
          n.fields.get? 1 = some (replNlBr (rowGet (⟨demoRowP, ["MSK"]⟩ : MergeEntry).row
            "USMLE Classic Presentation"))) :=
  reversed_card_direction "TRISH" ["Condition", "USMLE Classic Presentation"]
    ⟨demoRowP, ["MSK"]⟩ "USMLE Classic Presentation"
    (by decide) (by decide) (by decide) (by decide) (by decide)

/-! ## Never-miss tag lemmas -/

theorem append_ne_of_take_ne (p q x : String)
    (h : q.data.take p.data.length ≠ p.data) : p ++ x ≠ q := by
  intro he
  apply h
  rw [← he, String.data_append, List.take_left]

theorem blocks_tag_ne_nm (b : String) :
    "TRISH::Blocks::" ++ b ≠ "TRISH::Never_Miss" :=
  append_ne_of_take_ne _ _ _ (by decide)

theorem cond_tag_ne_nm (b : String) :
    "TRISH::Conditions::" ++ b ≠ "TRISH::Never_Miss" :=
  append_ne_of_take_ne _ _ _ (by decide)

theorem col_tag_ne_nm (b : String) (hb : b ≠ "Never_Miss") :
    "TRISH::" ++ b ≠ "TRISH::Never_Miss" := by
  intro he
  apply hb
  have h2 : "TRISH::" ++ b = "TRISH::" ++ "Never_Miss" := by
    rw [he]
    decide
  have h3 := congrArg String.data h2
  rw [String.data_append, String.data_append] at h3
  exact String.ext (List.append_cancel_left h3)

/-- A row whose never-miss flag is spelled in lower case. -/
def demoRowYes : Row :=
  [("Condition", "Gout"), ("Never Miss", "yes"), ("Diagnostics", "Joint aspiration")]

/-- C5 counterexample: the flag test of the code is case-sensitive, so a
flag value of yes in lower case produces no never-miss tag on the derived
card, contradicting the claim that the value Yes in any letter case does.
The row produces exactly one card and its tag list lacks the tag. -/
theorem flag_propagation_counterexample :
    (cardsForEntryLabeled "TRISH" ["Condition", "Never Miss", "Diagnostics"]
        (⟨demoRowYes, ["MSK"]⟩ : MergeEntry)).length = 1 ∧
    ∀ cn ∈ cardsForEntryLabeled "TRISH" ["Condition", "Never Miss", "Diagnostics"]
        (⟨demoRowYes, ["MSK"]⟩ : MergeEntry),
      "TRISH::Never_Miss" ∉ cn.2.tags := by decide

/-- C5 amended: a flag value whose trimmed form starts with an upper-case
Y (so Yes, YES, or Y with any trailing text, but not the lower-case yes)
puts the never-miss tag on every card derived from the row; a value that
is empty or whose trimmed form does not start with an upper-case Y yields
the tag on no derived card whose own column name does not slug-normalize
to the tag suffix Never_Miss. -/
theorem flag_propagation (dt : String) (cols : List String) (e : MergeEntry)
    (c : String) (n : Note) (h : (c, n) ∈ cardsForEntryLabeled dt cols e) :
    (nmFlag (rowGet e.row "Never Miss") = true → "TRISH::Never_Miss" ∈ n.tags) ∧
    (nmFlag (rowGet e.row "Never Miss") = false → clean_tag c ≠ "Never_Miss" →
      "TRISH::Never_Miss" ∉ n.tags) := by
  obtain ⟨-, rfl⟩ := mem_cardsForEntryLabeled dt cols e c n h
  constructor
  · intro hf
    by_cases hp : c = "USMLE Classic Presentation" <;>
      simp [mkCardNote, hp, hf]
  · intro hf hcl
    have hb : ∀ x, "TRISH::Never_Miss" ≠ "TRISH::Blocks::" ++ x :=
      fun x => (blocks_tag_ne_nm x).symm
    have hcnd : "TRISH::Never_Miss" ≠
        "TRISH::Conditions::" ++ clean_tag (rowGet e.row (cols.headD "")) :=
      (cond_tag_ne_nm _).symm
    have hcol : "TRISH::Never_Miss" ≠ "TRISH::" ++ clean_tag c :=
      (col_tag_ne_nm _ hcl).symm
    by_cases hp : c = "USMLE Classic Presentation"
    · simp only [mkCardNote, if_pos hp, hf, Bool.false_eq_true, if_false,
        List.append_nil]
      intro hmem
      rcases List.mem_append.mp hmem with h1 | h2
      · rcases List.mem_append.mp h1 with h3 | h4
        · rcases List.mem_map.mp h3 with ⟨b, -, hbe⟩
          exact hb (clean_tag b) (hbe.symm)
        · rw [List.mem_singleton] at h4
          exact hcnd h4
      · rw [List.mem_singleton] at h2
        exact absurd h2 (by decide)
    · simp only [mkCardNote, if_neg hp, hf, Bool.false_eq_true, if_false,
        List.append_nil]
      intro hmem
      rcases List.mem_append.mp hmem with h1 | h2
      · rcases List.mem_append.mp h1 with h3 | h4
        · rcases List.mem_map.mp h3 with ⟨b, -, hbe⟩
          exact hb (clean_tag b) (hbe.symm)
        · rw [List.mem_singleton] at h4
          exact hcnd h4
      · rw [List.mem_singleton] at h2
        exact hcol h2

/-- Witness for C5 at a concrete row whose flag is Yes with trailing
text: the single derived card carries the tag (first clause), and the
second clause holds vacuously. -/
theorem flag_propagation_witness :
    (nmFlag (rowGet (([("Condition", "Gout"), ("Never Miss", "Yes - core topic"),
        ("Diagnostics", "Joint aspiration")] : Row)) "Never Miss") = true →
      "TRISH::Never_Miss" ∈
        (mkCardNote "TRISH" ["MSK"] "Gout" "Yes - core topic" "" "Diagnostics"
          "Joint aspiration").tags) ∧
    (nmFlag (rowGet (([("Condition", "Gout"), ("Never Miss", "Yes - core topic"),
        ("Diagnostics", "Joint aspiration")] : Row)) "Never Miss") = false →
      clean_tag "Diagnostics" ≠ "Never_Miss" →
      "TRISH::Never_Miss" ∉
        (mkCardNote "TRISH" ["MSK"] "Gout" "Yes - core topic" "" "Diagnostics"
          "Joint aspiration").tags) :=
  flag_propagation "TRISH" ["Condition", "Never Miss", "Diagnostics"]
    ⟨[("Condition", "Gout"), ("Never Miss", "Yes - core topic"),
      ("Diagnostics", "Joint aspiration")], ["MSK"]⟩ "Diagnostics" _ (by decide)

/-- Every synthesized per-column note carries at least two tags (the
identifier tag and the direction tag, besides any block and flag tags). -/
theorem mkCardNote_tags_length (dt : String) (blocks : List String)
    (condition neverMiss moreInfo c v : String) :
    2 ≤ (mkCardNote dt blocks condition neverMiss moreInfo c v).tags.length := by
  by_cases hp : c = "USMLE Classic Presentation"
  · simp only [mkCardNote, if_pos hp]
    simp [List.length_append]
    omega
  · simp only [mkCardNote, if_neg hp]
    simp [List.length_append]
    omega

/-- C8: every completed run places the synthetic metadata note first in
the deck, its second field carries the supplied version tag and the count
of unique canonical entries, its stable identifier is built from the
fixed marker and the deck title only, exactly one note of the deck bears
the metadata tag set, and two runs over different input tables receive
the same metadata-note identifier. -/
theorem metadata_card (dt tag : String) (sources sources' : List Source)
    (notes notes' : List Note)
    (h : runPipeline dt tag sources = some notes)
    (h' : runPipeline dt tag sources' = some notes') :
    notes.head? = some (infoNote dt tag (mergeAll sources).merged.length) ∧
    (infoNote dt tag (mergeAll sources).merged.length).fields.get? 1 =
      some ("Last Updated: <b>" ++ tag ++ "</b><br>Unique Conditions: " ++
        toString (mergeAll sources).merged.length ++
        "<br><br>Check for updates regularly.") ∧
    (infoNote dt tag (mergeAll sources).merged.length).guid =
      guid_for ["DECK_INFO_CARD", dt] ∧
    notes.countP (fun n => n.tags == ["TRISH::MetaData"]) = 1 ∧
    (∀ m m', notes.head? = some m → notes'.head? = some m' → m.guid = m'.guid) := by
  simp only [runPipeline] at h h'
  split at h
  · exact absurd h (by simp)
  · split at h'
    · exact absurd h' (by simp)
    · have hn := Option.some.inj h
      have hn' := Option.some.inj h'
      subst hn
      subst hn'
      refine ⟨rfl, rfl, rfl, ?_, ?_⟩
      · rw [List.countP_cons]
        have hz : List.countP (fun n => n.tags == ["TRISH::MetaData"])
            ((mergeAll sources).merged.flatMap fun kv =>
              (cardsForEntryLabeled dt ((mergeAll sources).columns.getD []) kv.2).map
                Prod.snd) = 0 := by
          rw [List.countP_eq_zero]
          intro n hn
          rw [List.mem_flatMap] at hn
          obtain ⟨kv, -, hn2⟩ := hn
          rw [List.mem_map] at hn2
          obtain ⟨cn, hcn, rfl⟩ := hn2
          obtain ⟨-, hne⟩ := mem_cardsForEntryLabeled dt
            ((mergeAll sources).columns.getD []) kv.2 cn.1 cn.2 hcn
          intro hbeq
          have htags : cn.2.tags = ["TRISH::MetaData"] := eq_of_beq hbeq
          have hlen := mkCardNote_tags_length dt kv.2.blocks
            (rowGet kv.2.row (((mergeAll sources).columns.getD []).headD ""))
            (rowGet kv.2.row "Never Miss")
            (if pyStrip (rowGet kv.2.row "More Info") = "" then ""
             else rowGet kv.2.row "More Info")
            cn.1 (rowGet kv.2.row cn.1)
          rw [← hne, htags] at hlen
          exact absurd hlen (by decide)
        rw [hz]
        simp [infoNote]
      · intro m m' hm hm'
        have h1 := Option.some.inj hm
        have h2 := Option.some.inj hm'
        rw [← h1, ← h2]
        rfl

/-- Witness for C8 on two different concrete inputs. -/
theorem metadata_card_witness :
    ((runPipeline "TRISH" "v1" [demoMsk]).getD []).head? =
      some (infoNote "TRISH" "v1" (mergeAll [demoMsk]).merged.length) ∧
    (infoNote "TRISH" "v1" (mergeAll [demoMsk]).merged.length).fields.get? 1 =
      some ("Last Updated: <b>" ++ "v1" ++ "</b><br>Unique Conditions: " ++
        toString (mergeAll [demoMsk]).merged.length ++
        "<br><br>Check for updates regularly.") ∧
    (infoNote "TRISH" "v1" (mergeAll [demoMsk]).merged.length).guid =
      guid_for ["DECK_INFO_CARD", "TRISH"] ∧
    ((runPipeline "TRISH" "v1" [demoMsk]).getD []).countP
      (fun n => n.tags == ["TRISH::MetaData"]) = 1 ∧
    (∀ m m', ((runPipeline "TRISH" "v1" [demoMsk]).getD []).head? = some m →
      ((runPipeline "TRISH" "v1" [demoCardio]).getD []).head? = some m' →
      m.guid = m'.guid) :=
  metadata_card "TRISH" "v1" [demoMsk] [demoCardio] _ _ (by decide) (by decide)

end Trish
